import Mathlib

/-!
# Shallow embedding of the datastore request layer (`datastore/request.js`)

The embedding translates `DatastoreRequest` — batch lookup with deferred-key
continuation (`get`), the save/delete mutation builders with generated-key
reconciliation (`save`, `delete`), the streaming query loop (`runQuery`), bulk
ID allocation (`allocateIds`) and the dispatcher's transaction framing
(`makeReq_`) — into pure Lean functions.

Asynchronous dispatch is modelled with explicit response oracles: each
`makeReq_` call consumes the next entry of an oracle list (or, for operations
that dispatch at most once, an optional entry), standing for the response the
transport would hand the continuation.  Every operation returns, besides its
outcome, the list of requests it dispatched and the caller-visible state after
the call (queue contents, descriptor mutations, which continuation ran).

The key/entity codec lives in the collaborator module `entity.js`, which is not
among the sources; its functions are modelled from the spec as injective black
boxes, as marked on each definition.
-/

namespace DatastoreMgr

/-- One `(kind, identifier)` segment of a key path; the identifier is absent
while the key is incomplete. -/
structure PathElem where
  kind : String
  ident : Option String
deriving DecidableEq, Repr

/-- A datastore key: an optional namespace and an ordered path. -/
structure Key where
  ns : Option String
  path : List PathElem
deriving DecidableEq, Repr

/-- Modelled from the spec: `entity.isKeyComplete` of the key/entity codec
(`entity.js` is not among the sources).  A key is complete iff its final path
segment carries a non-empty identifier. -/
def isKeyComplete (k : Key) : Bool :=
  match k.path.getLast? with
  | some pe =>
    match pe.ident with
    | some s => s != ""
    | none => false
  | none => false

/-- Wire form of a key.  Modelled from the spec: the codec's key encoding is a
black box; the model keeps the key itself so that decoding inverts encoding. -/
structure KeyProto where
  key : Key
deriving DecidableEq, Repr

/-- Modelled from the spec: `entity.keyToKeyProto` (black-box codec). -/
def keyToKeyProto (k : Key) : KeyProto := ⟨k⟩

/-- Modelled from the spec: `entity.keyFromKeyProto` (black-box codec). -/
def keyFromKeyProto (p : KeyProto) : Key := p.key

/-- A domain entity produced by a lookup or query; opaque payload. -/
structure Entity where
  payload : String
deriving DecidableEq, Repr

/-- A wire `EntityResult` carried in lookup/query responses. -/
structure EntityResult where
  result : Entity
deriving DecidableEq, Repr

/-- Modelled from the spec: `entity.formatArray`, wire result list → domain
entities, order preserving. -/
def formatArray (rs : List EntityResult) : List Entity := rs.map (·.result)

/-- Errors surfaced by the dispatcher. -/
abbrev Err := String

/-- A caller-supplied continuation; `noop` is `util.noop`, substituted when the
caller omitted the argument. -/
inductive Callback
  | noop
  | user (tag : Nat)
deriving DecidableEq, Repr

/-- A scalar-or-array argument, mirroring the `Array.isArray` test the
operations start with. -/
inductive OneOrMany (α : Type)
  | one (a : α)
  | many (as : List α)
deriving DecidableEq, Repr

/-- The array the operation works on after normalizing its input. -/
def OneOrMany.toList {α : Type} : OneOrMany α → List α
  | .one a => [a]
  | .many as => as

/-! ## Lookup (`DatastoreRequest.prototype.get`, lines 107-148) -/

/-- Body of a `lookup` request: the wire-encoded keys. -/
structure LookupReq where
  key : List KeyProto
deriving DecidableEq, Repr

/-- A decoded `lookup` response: found results and deferred keys. -/
structure LookupResp where
  found : List EntityResult
  deferred : List KeyProto
deriving DecidableEq, Repr

/-- The successive responses the dispatcher hands the lookup continuations:
one oracle entry per `makeReq_('lookup', …)` call, in call order. -/
abbrev LookupOracle := List (Except Err LookupResp)

/-- The request body `get` builds from its normalized key list (line 115). -/
def lookupReqOf (keys : List Key) : LookupReq :=
  { key := keys.map keyToKeyProto }

/-- Shape of the value handed to the lookup continuation on success:
`found[0]` for a scalar request, the accumulated array otherwise. -/
inductive GetResult
  | one (e : Option Entity)
  | many (es : List Entity)
deriving DecidableEq, Repr

/-- How a `get` call ends: the continuation never runs (oracle exhausted), it
receives an error, or it receives a result. -/
inductive GetOutcome
  | hang
  | fail (e : Err)
  | ok (r : GetResult)
deriving DecidableEq, Repr

/-- The recursive body of `get` (lines 110-147).  `isMultipleRequest` is the
`Array.isArray` flag of the *current* call; the deferred-key recursion always
re-enters with an array argument, so recursive rounds carry `true`.  Returns
the dispatched lookup requests in order, paired with the outcome. -/
def getGo : LookupOracle → Bool → List Key → List LookupReq × GetOutcome
  | [], _, keys => ([lookupReqOf keys], .hang)
  | .error e :: _, _, keys => ([lookupReqOf keys], .fail e)
  | .ok resp :: rest, isMultipleRequest, keys =>
    let found := formatArray resp.found
    if isMultipleRequest && !resp.deferred.isEmpty then
      -- lines 127-144: re-issue `get` for exactly the deferred keys and
      -- append the recursive result to the accumulated found list
      let next := getGo rest true (resp.deferred.map keyFromKeyProto)
      (lookupReqOf keys :: next.1,
        match next.2 with
        | .ok (.many es) => .ok (.many (found ++ es))
        | .ok (.one e) => .ok (.many (found ++ e.toList)) -- unreachable: recursive calls are array-shaped
        | .fail e => .fail e
        | .hang => .hang)
    else
      ([lookupReqOf keys], .ok (if isMultipleRequest then .many found else .one found.head?))

/-- Caller-visible effects of one `get` call. -/
structure GetOut where
  target : Callback
  dispatched : List LookupReq
  outcome : GetOutcome
deriving DecidableEq, Repr

/-- `DatastoreRequest.prototype.get` (lines 107-148): normalizes the argument
shape, substitutes `util.noop` for an omitted callback (line 113), then runs
the lookup loop. -/
def DatastoreRequest.get (oracle : LookupOracle) (keys : OneOrMany Key)
    (callback : Option Callback) : GetOut :=
  let isMultipleRequest := match keys with | .many _ => true | .one _ => false
  let callback := callback.getD .noop
  let run := getGo oracle isMultipleRequest keys.toList
  { target := callback, dispatched := run.1, outcome := run.2 }

/-! ## Mutation — save (`DatastoreRequest.prototype.save`, lines 228-291) -/

/-- Wire property value: the codec's encoding of a raw value plus the optional
`indexed` flag. -/
structure PropertyValue where
  encoded : String
  indexed : Option Bool
deriving DecidableEq, Repr

/-- A data record's `value` slot.  The caller supplies a raw value; `save`
overwrites the slot in place with the wire property built from it. -/
inductive DataValue
  | raw (v : String)
  | prop (p : PropertyValue)
deriving DecidableEq, Repr

/-- Modelled from the spec: the raw-value encoding inside
`entity.valueToProperty` (black-box codec, injective). -/
def encodeRawValue : DataValue → String
  | .raw v => "enc:" ++ v
  | .prop p => "enc[" ++ p.encoded ++ "]"

/-- Modelled from the spec: `entity.valueToProperty`; the wire property built
from a value, with no `indexed` flag of its own. -/
def valueToProperty (v : DataValue) : PropertyValue :=
  { encoded := encodeRawValue v, indexed := none }

/-- One record of an explicit property list: `{name, value, excludeFromIndexes}`
(the index-control field is absent unless the caller set a boolean). -/
structure DataRecord where
  name : String
  value : DataValue
  excludeFromIndexes : Option Bool
deriving DecidableEq, Repr

/-- An entity-descriptor's `data`: a plain property bag (opaque) or an explicit
record list. -/
inductive SaveData
  | bag (b : String)
  | records (rs : List DataRecord)
deriving DecidableEq, Repr

/-- A caller-supplied entity-descriptor `{key, data}`. -/
structure EntityDescriptor where
  key : Key
  data : SaveData
deriving DecidableEq, Repr

/-- Body of a wire entity: mapped records or the bag's generic encoding. -/
inductive ProtoBody
  | fromRecords (rs : List DataRecord)
  | fromBag (enc : String)
deriving DecidableEq, Repr

/-- Modelled from the spec: `entity.entityToEntityProto`, plain-bag data →
wire form (black-box codec). -/
def entityToEntityProto (b : String) : ProtoBody := .fromBag ("encbag:" ++ b)

/-- A wire entity inside a mutation. -/
structure EntityProto where
  key : KeyProto
  body : ProtoBody
deriving DecidableEq, Repr

/-- Lines 239-248: the in-place normalization `save` applies to each record of
an explicit property list — the `value` slot is overwritten with its wire
property, and a boolean `excludeFromIndexes` is folded into the property's
`indexed` flag (as its negation) and then deleted from the record. -/
def normalizeRecord (data : DataRecord) : DataRecord :=
  let v := valueToProperty data.value
  match data.excludeFromIndexes with
  | some b => { data with value := .prop { v with indexed := some (!b) }, excludeFromIndexes := none }
  | none => { data with value := .prop v }

/-- Lines 236-253: build the wire entity for one descriptor.  Returns the proto
together with the descriptor as the caller sees it afterwards: the record
objects of array-shaped data are shared with the caller, so their normalization
is a mutation of caller-owned state; bag-shaped data goes through the codec
without being touched. -/
def encodeDescriptor (entityObject : EntityDescriptor) : EntityProto × EntityDescriptor :=
  match entityObject.data with
  | .records rs =>
    let rs' := rs.map normalizeRecord
    ({ key := keyToKeyProto entityObject.key, body := .fromRecords rs' },
     { entityObject with data := .records rs' })
  | .bag b =>
    ({ key := keyToKeyProto entityObject.key, body := entityToEntityProto b }, entityObject)

/-- The `mutation` object of a commit body; absent wire fields are empty. -/
structure Mutation where
  upsert : List EntityProto
  insert_auto_id : List EntityProto
  delete : List KeyProto
deriving DecidableEq, Repr

/-- What the classification reduce of `save` produces: the mutation batches,
the recorded input positions of the incomplete-key descriptors, and the
descriptor array as the caller sees it afterwards. -/
structure BuildResult where
  mutation : Mutation
  insertIndexes : List Nat
  entities : List EntityDescriptor
deriving DecidableEq, Repr

/-- Lines 232-267: the reduce over the normalized descriptor array.  `i` is the
input position of the first descriptor of the remaining list; a complete-key
descriptor's proto is pushed onto `upsert`, an incomplete-key one onto
`insert_auto_id` with its position appended to `insertIndexes`, in input
order. -/
def buildMutationGo (i : Nat) : List EntityDescriptor → BuildResult
  | [] =>
    { mutation := { upsert := [], insert_auto_id := [], delete := [] },
      insertIndexes := [], entities := [] }
  | entityObject :: rest =>
    let enc := encodeDescriptor entityObject
    let b := buildMutationGo (i + 1) rest
    if isKeyComplete entityObject.key then
      { mutation := { b.mutation with upsert := enc.1 :: b.mutation.upsert },
        insertIndexes := b.insertIndexes,
        entities := enc.2 :: b.entities }
    else
      { mutation := { b.mutation with insert_auto_id := enc.1 :: b.mutation.insert_auto_id },
        insertIndexes := i :: b.insertIndexes,
        entities := enc.2 :: b.entities }

/-- Body of a `commit` request before the dispatcher's framing. -/
structure CommitReq where
  mutation : Mutation
deriving DecidableEq, Repr

/-- The `mutation_result` of a decoded commit response; `insert_auto_id_key`
may be absent (`|| []`). -/
structure MutationResult where
  insert_auto_id_key : Option (List KeyProto)
deriving DecidableEq, Repr

/-- A decoded commit response. -/
structure CommitResp where
  mutation_result : MutationResult
deriving DecidableEq, Repr

/-- A continuation sitting in a transaction's `requestCallbacks_` queue. -/
inductive PendingCallback
  | saveOnCommit
deriving DecidableEq, Repr

/-- The caller object (`this`): a transaction carries a bound identifier `id`
and the pending queues `requests_` / `requestCallbacks_`; a dataset has no
identifier. -/
structure ReqCtx where
  id : Option String
  requests_ : List CommitReq
  requestCallbacks_ : List PendingCallback
deriving DecidableEq, Repr

/-- Replace the `path` of the key of the descriptor at position `j`, leaving
every other descriptor and every other field untouched (the in-place
`entities[…].key.path = path` of line 286). -/
def updateKeyPath : List EntityDescriptor → Nat → List PathElem → List EntityDescriptor
  | [], _, _ => []
  | e :: es, 0, p => { e with key := { e.key with path := p } } :: es
  | e :: es, j + 1, p => e :: updateKeyPath es j p

/-- Lines 283-287: copy each generated key's path onto the original descriptor's
key at the recorded input index, pairing generated keys with recorded positions
in order. -/
def applyAutoKeys : List EntityDescriptor → List Nat → List KeyProto → List EntityDescriptor
  | entities, _, [] => entities
  | entities, [], _ :: _ => entities  -- unreachable for well-formed responses: one generated key per queued insert
  | entities, j :: js, key :: ks =>
    applyAutoKeys (updateKeyPath entities j (keyFromKeyProto key).path) js ks

/-- Lines 277-290, `onCommit`: on an error or a missing response the callback
receives the error (possibly the void success) and nothing is reconciled;
otherwise the generated keys are copied back and the callback succeeds.
Returns the callback's argument and the descriptor array afterwards. -/
def onCommit (entities : List EntityDescriptor) (insertIndexes : List Nat)
    (err : Option Err) (resp : Option CommitResp) : Option Err × List EntityDescriptor :=
  match resp with
  | none => (err, entities)
  | some r =>
    if err.isSome then (err, entities)
    else
      let autoInserted := r.mutation_result.insert_auto_id_key.getD []
      (none, applyAutoKeys entities insertIndexes autoInserted)

/-- Caller-visible effects of one `save` call. -/
structure SaveOut where
  ctx : ReqCtx
  dispatched : List (String × CommitReq)
  target : Option Callback
  invoked : Option (Option Err)
  entities : List EntityDescriptor
deriving DecidableEq, Repr

/-- `DatastoreRequest.prototype.save` (lines 228-291).  The oracle is the
`(err, resp)` pair the commit continuation receives, `none` when it never runs.
With a bound transaction identifier the built request and its continuation are
queued and nothing is dispatched; otherwise a `commit` is dispatched
immediately and `onCommit` consumes the oracle.  No `util.noop` substitution
happens for the callback. -/
def DatastoreRequest.save (ctx : ReqCtx) (input : OneOrMany EntityDescriptor)
    (callback : Option Callback)
    (oracle : Option (Option Err × Option CommitResp)) : SaveOut :=
  let entities := input.toList
  let b := buildMutationGo 0 entities
  let req : CommitReq := { mutation := b.mutation }
  if ctx.id.isSome then
    { ctx :=
        { ctx with
          requests_ := ctx.requests_ ++ [req],
          requestCallbacks_ := ctx.requestCallbacks_ ++ [.saveOnCommit] },
      dispatched := [], target := callback, invoked := none, entities := b.entities }
  else
    match oracle with
    | none =>
      { ctx := ctx, dispatched := [("commit", req)], target := callback,
        invoked := none, entities := b.entities }
    | some (err, resp) =>
      let done := onCommit b.entities b.insertIndexes err resp
      { ctx := ctx, dispatched := [("commit", req)], target := callback,
        invoked := some done.1, entities := done.2 }

/-! ## Mutation — delete (`DatastoreRequest.prototype.delete`, lines 309-327) -/

/-- Caller-visible effects of one `delete` call. -/
structure DeleteOut where
  ctx : ReqCtx
  dispatched : List (String × CommitReq)
  target : Callback
  invoked : Option (Option Err)
deriving DecidableEq, Repr

/-- `DatastoreRequest.prototype.delete` (lines 309-327): normalizes the key
argument, substitutes `util.noop` for an omitted callback (line 313), builds a
single `delete` mutation list, and either queues the request under a bound
transaction (with no continuation queued) or dispatches a `commit`
immediately. -/
def DatastoreRequest.delete (ctx : ReqCtx) (keys : OneOrMany Key)
    (callback : Option Callback) (oracle : Option (Option Err)) : DeleteOut :=
  let callback := callback.getD .noop
  let req : CommitReq :=
    { mutation := { upsert := [], insert_auto_id := [],
                    delete := keys.toList.map keyToKeyProto } }
  if ctx.id.isSome then
    { ctx := { ctx with requests_ := ctx.requests_ ++ [req] },
      dispatched := [], target := callback, invoked := none }
  else
    match oracle with
    | none => { ctx := ctx, dispatched := [("commit", req)], target := callback, invoked := none }
    | some a => { ctx := ctx, dispatched := [("commit", req)], target := callback, invoked := some a }

/-! ## Query, stream mode (`DatastoreRequest.prototype.runQuery`, lines 368-436) -/

/-- The part of a query object the stream loop reads: the client-side limit
(`q.limitVal`, absent when the query set none). -/
structure Query where
  limitVal : Option Nat
deriving DecidableEq, Repr

/-- A decoded `runQuery` response batch: entity results and the optional end
cursor (already rendered to its base64 string; `''` stands for an absent
cursor, line 406-409). -/
structure QueryPage where
  entity_result : List EntityResult
  end_cursor : Option String
deriving DecidableEq, Repr

/-- How a streaming `runQuery` ends: the stream is ended cleanly after emitting
`emitted` over `pages` page requests, an error event is emitted, or the oracle
ran out before the loop stopped. -/
inductive StreamOutcome
  | ended (emitted : List Entity) (pages : Nat)
  | errored (emitted : List Entity) (pages : Nat) (e : Err)
  | hang (emitted : List Entity) (pages : Nat)
deriving DecidableEq, Repr

/-- Prepend one page's pushed entities and count its page request onto the
outcome of the rest of the loop. -/
def StreamOutcome.after (out : StreamOutcome) (emitted : List Entity) : StreamOutcome :=
  match out with
  | .ended es n => .ended (emitted ++ es) (n + 1)
  | .errored es n e => .errored (emitted ++ es) (n + 1) e
  | .hang es n => .hang (emitted ++ es) (n + 1)

/-- The recursive `runQuery` of stream mode (lines 392-435): one oracle entry
per page request.  `resultsToSend` is the remaining client-side budget
(`none` when the query set no limit, line 371).  A page with no cursor or an
empty batch ends the stream before anything is pushed (line 416); otherwise
entities are shifted and pushed while budget remains, the stream ends when the
budget reaches zero (lines 421-430), and the next page is requested
otherwise. -/
def runQueryStreamGo : List (Except Err QueryPage) → Option Nat → StreamOutcome
  | [], _ => .hang [] 0
  | .error e :: _, _ => .errored [] 1 e
  | .ok resp :: rest, resultsToSend =>
    let entities := formatArray resp.entity_result
    let cursor := resp.end_cursor.getD ""
    if cursor = "" ∨ entities = [] then .ended [] 1
    else
      match resultsToSend with
      | none => (runQueryStreamGo rest none).after entities
      | some b =>
        let pushed := entities.take b
        if b - pushed.length = 0 then .ended pushed 1
        else (runQueryStreamGo rest (some (b - pushed.length))).after pushed

/-- `runQuery` in stream mode (no callback supplied): the loop starts with the
query's own limit as budget. -/
def DatastoreRequest.runQueryStream (q : Query)
    (oracle : List (Except Err QueryPage)) : StreamOutcome :=
  runQueryStreamGo oracle q.limitVal

/-! ## Allocate IDs (`DatastoreRequest.prototype.allocateIds`, lines 465-489) -/

/-- Body of an `allocateIds` request: the wire-encoded key copies. -/
structure AllocReq where
  key : List KeyProto
deriving DecidableEq, Repr

/-- A decoded `allocateIds` response; the key list may be absent (`|| []`). -/
structure AllocResp where
  key : Option (List KeyProto)
deriving DecidableEq, Repr

/-- How an `allocateIds` call ends: a synchronous `throw` before any dispatch,
a dispatched request whose continuation never runs, fails, or succeeds with the
decoded keys. -/
inductive AllocOutcome
  | thrown (msg : String)
  | hang
  | fail (e : Err)
  | ok (keys : List Key)
deriving DecidableEq, Repr

/-- `DatastoreRequest.prototype.allocateIds` (lines 465-489): throws
synchronously on a complete key; otherwise builds `n` wire copies of the
incomplete key, dispatches `allocateIds`, and decodes the returned key list in
order.  Returns the dispatched requests paired with the outcome. -/
def DatastoreRequest.allocateIds (incompleteKey : Key) (n : Nat)
    (oracle : Option (Except Err AllocResp)) : List AllocReq × AllocOutcome :=
  if isKeyComplete incompleteKey then
    ([], .thrown "An incomplete key should be provided.")
  else
    let incompleteKeys := List.replicate n (keyToKeyProto incompleteKey)
    let req : AllocReq := { key := incompleteKeys }
    match oracle with
    | none => ([req], .hang)
    | some (.error e) => ([req], .fail e)
    | some (.ok resp) => ([req], .ok ((resp.key.getD []).map keyFromKeyProto))

/-! ## Dispatcher framing (`DatastoreRequest.prototype.makeReq_`, lines 509-531) -/

/-- The `read_options` sub-object of a request body. -/
structure ReadOpts where
  transaction : Option String
deriving DecidableEq, Repr

/-- The transaction-relevant fields of a request body; every other field of the
logical body is untouched by the framing step. -/
structure ReqBody where
  mode : Option String
  transaction : Option String
  read_options : Option ReadOpts
deriving DecidableEq, Repr

/-- Non-transaction mode key (line 55). -/
def MODE_NON_TRANSACTIONAL : String := "NON_TRANSACTIONAL"

/-- Transaction mode key (line 61). -/
def MODE_TRANSACTIONAL : String := "TRANSACTIONAL"

/-- Lines 518-531 of `makeReq_`: the transaction framing applied to the body
before wire encoding.  `id` is the caller's bound transaction identifier. -/
def makeReqFraming (method : String) (id : Option String) (body : ReqBody) : ReqBody :=
  let body :=
    if method = "commit" then
      match id with
      | some t => { body with mode := some MODE_TRANSACTIONAL, transaction := some t }
      | none => { body with mode := some MODE_NON_TRANSACTIONAL }
    else body
  if method = "lookup" then
    match id with
    | some t =>
      let ro := body.read_options.getD { transaction := none }
      { body with read_options := some { ro with transaction := some t } }
    | none => body
  else body

/-! ## Theorems -/

/-- `true` iff the outcome hands the continuation an array-shaped result. -/
def GetOutcome.isArrayResult : GetOutcome → Bool
  | .ok (.many _) => true
  | _ => false

/-- `true` iff the outcome hands the continuation a scalar result. -/
def GetOutcome.isScalarResult : GetOutcome → Bool
  | .ok (.one _) => true
  | _ => false

/-- The lookup loop entered with the array flag set never produces a scalar
result, whatever the deferral rounds do. -/
theorem getGo_true_not_scalar (oracle : LookupOracle) (ks : List Key) :
    (getGo oracle true ks).2.isScalarResult = false := by
  cases oracle with
  | nil => rfl
  | cons h t =>
    cases h with
    | error e => rfl
    | ok resp =>
      by_cases hd : resp.deferred.isEmpty
      · simp [getGo, hd, GetOutcome.isScalarResult]
      · simp only [getGo, hd, Bool.not_false, Bool.and_true, Bool.true_and, if_pos]
        rcases h2 : (getGo t true (resp.deferred.map keyFromKeyProto)).2 with _ | e | r
        · simp [h2, GetOutcome.isScalarResult]
        · simp [h2, GetOutcome.isScalarResult]
        · cases r <;> simp [h2, GetOutcome.isScalarResult]

/-- C4: `get` with a single (non-array) key never hands its callback an array —
the result is a single entity or nil — while `get` with an array of keys, even
an array of length 1, never hands it a scalar: the result is always an array. -/
theorem get_result_shape (oracle : LookupOracle) (cb : Option Callback)
    (k : Key) (ks : List Key) :
    (DatastoreRequest.get oracle (.one k) cb).outcome.isArrayResult = false
    ∧ (DatastoreRequest.get oracle (.many ks) cb).outcome.isScalarResult = false := by
  constructor
  · cases oracle with
    | nil => rfl
    | cons h t =>
      cases h with
      | error e => rfl
      | ok resp => simp [DatastoreRequest.get, OneOrMany.toList, getGo, GetOutcome.isArrayResult]
  · simpa [DatastoreRequest.get, OneOrMany.toList] using getGo_true_not_scalar oracle ks

/-- C10: `get` and `delete` substitute the no-op continuation for an omitted
callback before dispatching, so completion never invokes an undefined
callback; `save` performs no such substitution and targets exactly the
callback it was given. -/
theorem omitted_callback_substitution (oracle : LookupOracle) (ks dks : OneOrMany Key)
    (ctx : ReqCtx) (doracle : Option (Option Err))
    (inp : OneOrMany EntityDescriptor) (soracle : Option (Option Err × Option CommitResp))
    (c : Callback) (cb : Option Callback) :
    (DatastoreRequest.get oracle ks none).target = Callback.noop
    ∧ (DatastoreRequest.get oracle ks (some c)).target = c
    ∧ (DatastoreRequest.delete ctx dks none doracle).target = Callback.noop
    ∧ (DatastoreRequest.delete ctx dks (some c) doracle).target = c
    ∧ (DatastoreRequest.save ctx inp cb soracle).target = cb := by
  refine ⟨rfl, rfl, ?_, ?_, ?_⟩
  · cases hid : ctx.id.isSome <;> cases doracle <;> simp [DatastoreRequest.delete, hid]
  · cases hid : ctx.id.isSome <;> cases doracle <;> simp [DatastoreRequest.delete, hid]
  · cases hid : ctx.id.isSome <;> rcases soracle with _ | ⟨e, r⟩ <;>
      simp [DatastoreRequest.save, hid]

/-- Spec side (§4.2): the lookup requests a deferred chain must issue — one for
the original keys, then, per round, one for exactly the keys the previous
response deferred. -/
def deferredReqChain (keys : List Key) : List LookupResp → List LookupReq
  | [] => [lookupReqOf keys]
  | r :: rs => lookupReqOf keys :: deferredReqChain (r.deferred.map keyFromKeyProto) rs

/-- The lookup loop on a batch request, fed responses that defer keys for
`rs.length` rounds and then one response with no deferrals: it dispatches
exactly the deferred-request chain and succeeds with the concatenation of all
found lists, in round order. -/
theorem getGo_deferred_rounds (rs : List LookupResp) (last : LookupResp) (ks : List Key)
    (hrs : ∀ r ∈ rs, r.deferred ≠ [])
    (hlast : last.deferred = []) :
    getGo ((rs ++ [last]).map Except.ok) true ks =
      (deferredReqChain ks rs,
       .ok (.many (((rs ++ [last]).map fun r => formatArray r.found).flatten))) := by
  induction rs generalizing ks with
  | nil => simp [getGo, deferredReqChain, hlast]
  | cons r rs ih =>
    have hr : r.deferred.isEmpty = false :=
      List.isEmpty_eq_false.mpr (hrs r (List.mem_cons_self r rs))
    have hrs' : ∀ x ∈ rs, x.deferred ≠ [] := fun x hx => hrs x (List.mem_cons_of_mem r hx)
    have h := ih (r.deferred.map keyFromKeyProto) hrs'
    simp only [List.cons_append, List.map_cons, getGo, hr, Bool.not_false, Bool.and_self,
      if_pos, List.append_eq, h, deferredReqChain, List.flatten_cons]

/-- C2: a batch `get` whose responses report deferred keys recursively
re-issues the lookup for exactly the deferred keys, appending each round's
result to the accumulated found list, until a response carries no deferred
keys; the final result is the union (concatenation, in round order) of the
immediately-found and eventually-found entities, for any number of deferral
rounds — 0, 1 and 3 rounds are instances of the statement. -/
theorem get_deferred_resolution (rs : List LookupResp) (last : LookupResp)
    (ks : List Key) (cb : Option Callback)
    (hrs : ∀ r ∈ rs, r.deferred ≠ [])
    (hlast : last.deferred = []) :
    DatastoreRequest.get ((rs ++ [last]).map Except.ok) (.many ks) cb =
      { target := cb.getD .noop,
        dispatched := deferredReqChain ks rs,
        outcome := .ok (.many (((rs ++ [last]).map fun r => formatArray r.found).flatten)) } := by
  have h := getGo_deferred_rounds rs last ks hrs hlast
  simp only [DatastoreRequest.get, OneOrMany.toList]
  rw [h]

/-- Witness for C2 at a concrete input: one round of deferral over a two-key
batch resolves to the union of both rounds' found entities and issues the
deferred chain. -/
theorem get_deferred_resolution_witness :
    DatastoreRequest.get
        ([{ found := [⟨⟨"x"⟩⟩],
            deferred := [keyToKeyProto { ns := none, path := [⟨"P", some "2"⟩] }] },
          { found := [⟨⟨"y"⟩⟩], deferred := [] }].map Except.ok)
        (.many [{ ns := none, path := [⟨"C", some "1"⟩] },
                { ns := none, path := [⟨"P", some "2"⟩] }]) none =
      { target := .noop,
        dispatched :=
          [lookupReqOf [{ ns := none, path := [⟨"C", some "1"⟩] },
                        { ns := none, path := [⟨"P", some "2"⟩] }],
           lookupReqOf [{ ns := none, path := [⟨"P", some "2"⟩] }]],
        outcome := .ok (.many [⟨"x"⟩, ⟨"y"⟩]) } := by
  have h := get_deferred_resolution
    [{ found := [⟨⟨"x"⟩⟩],
       deferred := [keyToKeyProto { ns := none, path := [⟨"P", some "2"⟩] }] }]
    { found := [⟨⟨"y"⟩⟩], deferred := [] }
    [{ ns := none, path := [⟨"C", some "1"⟩] }, { ns := none, path := [⟨"P", some "2"⟩] }]
    none (by simp) rfl
  simpa [deferredReqChain, formatArray, keyFromKeyProto, keyToKeyProto] using h

/-- C7: `allocateIds` on a key whose final path segment already has an
identifier fails synchronously with no dispatch; on an incomplete key it
dispatches one `allocateIds` request holding `n` wire copies of the key, and a
successful response yields the decoded key list in the store's order. -/
theorem allocateIds_complete_key_guard (k : Key) (n : Nat)
    (oracle : Option (Except Err AllocResp)) (resp : AllocResp) :
    (isKeyComplete k = true →
      DatastoreRequest.allocateIds k n oracle =
        ([], .thrown "An incomplete key should be provided."))
    ∧ (isKeyComplete k = false →
      (DatastoreRequest.allocateIds k n oracle).1 =
          [{ key := List.replicate n (keyToKeyProto k) }]
      ∧ DatastoreRequest.allocateIds k n (some (.ok resp)) =
          ([{ key := List.replicate n (keyToKeyProto k) }],
           .ok ((resp.key.getD []).map keyFromKeyProto))) := by
  constructor
  · intro hc; simp [DatastoreRequest.allocateIds, hc]
  · intro hc
    refine ⟨?_, ?_⟩
    · rcases oracle with _ | e <;> simp [DatastoreRequest.allocateIds, hc]
      rcases e with e | r <;> simp
    · simp [DatastoreRequest.allocateIds, hc]

/-- Witness for C7 at concrete inputs: a complete key throws with no dispatch;
an incomplete key dispatches three wire copies and decodes the returned key. -/
theorem allocateIds_complete_key_guard_witness :
    (DatastoreRequest.allocateIds { ns := none, path := [⟨"C", some "1"⟩] } 3 none =
      ([], .thrown "An incomplete key should be provided."))
    ∧ (DatastoreRequest.allocateIds { ns := none, path := [⟨"C", none⟩] } 3 none).1 =
        [{ key := List.replicate 3 (keyToKeyProto { ns := none, path := [⟨"C", none⟩] }) }]
    ∧ DatastoreRequest.allocateIds { ns := none, path := [⟨"C", none⟩] } 3
        (some (.ok { key := some [keyToKeyProto { ns := none, path := [⟨"C", some "9"⟩] }] })) =
        ([{ key := List.replicate 3 (keyToKeyProto { ns := none, path := [⟨"C", none⟩] }) }],
         .ok [{ ns := none, path := [⟨"C", some "9"⟩] }]) := by
  have h1 := (allocateIds_complete_key_guard { ns := none, path := [⟨"C", some "1"⟩] } 3 none
    { key := none }).1 (by decide)
  have h2 := (allocateIds_complete_key_guard { ns := none, path := [⟨"C", none⟩] } 3 none
    { key := some [keyToKeyProto { ns := none, path := [⟨"C", some "9"⟩] }] }).2 (by decide)
  exact ⟨h1, h2.1, h2.2⟩

/-- C9: the dispatcher's framing — a `commit` body is marked transactional and
carries the bound transaction identifier when one is present, and is marked
non-transactional otherwise; a `lookup` body under a bound identifier carries
it in `read_options`; every other
method's body is left without transaction framing. -/
theorem makeReq_transaction_framing (t : String) (body : ReqBody) (method : String) :
    makeReqFraming "commit" (some t) body =
      { body with mode := some MODE_TRANSACTIONAL, transaction := some t }
    ∧ makeReqFraming "commit" none body =
      { body with mode := some MODE_NON_TRANSACTIONAL }
    ∧ makeReqFraming "lookup" (some t) body =
      { body with read_options := some { transaction := some t } }
    ∧ makeReqFraming "lookup" none body = body
    ∧ (method ≠ "commit" → method ≠ "lookup" →
        makeReqFraming method (some t) body = body ∧ makeReqFraming method none body = body) := by
  refine ⟨by simp [makeReqFraming], by simp [makeReqFraming], by simp [makeReqFraming],
    by simp [makeReqFraming], fun hc hl => ⟨?_, ?_⟩⟩ <;> simp [makeReqFraming, hc, hl]

/-- Witness for C9 at concrete inputs: framing of a `runQuery` body is the
identity, under a bound identifier and without one. -/
theorem makeReq_transaction_framing_witness :
    makeReqFraming "runQuery" (some "txn") { mode := none, transaction := none, read_options := none } =
      { mode := none, transaction := none, read_options := none }
    ∧ makeReqFraming "runQuery" none { mode := none, transaction := none, read_options := none } =
      { mode := none, transaction := none, read_options := none } :=
  (makeReq_transaction_framing "txn"
      { mode := none, transaction := none, read_options := none } "runQuery").2.2.2.2
    (by decide) (by decide)

/-- C5: `save` under a bound transaction identifier appends the built request
and its completion continuation to the pending queues and dispatches nothing;
`delete` appends its request with no continuation and dispatches nothing;
without a bound identifier both dispatch a `commit` immediately. -/
theorem mutation_transaction_buffering (ctx : ReqCtx) (tid : String)
    (inp : OneOrMany EntityDescriptor) (dks : OneOrMany Key)
    (cb dcb : Option Callback) (soracle : Option (Option Err × Option CommitResp))
    (doracle : Option (Option Err)) :
    (ctx.id = some tid →
      (DatastoreRequest.save ctx inp cb soracle).ctx.requests_ =
          ctx.requests_ ++ [{ mutation := (buildMutationGo 0 inp.toList).mutation }]
      ∧ (DatastoreRequest.save ctx inp cb soracle).ctx.requestCallbacks_ =
          ctx.requestCallbacks_ ++ [.saveOnCommit]
      ∧ (DatastoreRequest.save ctx inp cb soracle).dispatched = []
      ∧ (DatastoreRequest.save ctx inp cb soracle).invoked = none
      ∧ (DatastoreRequest.delete ctx dks dcb doracle).ctx.requests_ =
          ctx.requests_ ++ [{ mutation := { upsert := [], insert_auto_id := [],
                                            delete := dks.toList.map keyToKeyProto } }]
      ∧ (DatastoreRequest.delete ctx dks dcb doracle).ctx.requestCallbacks_ =
          ctx.requestCallbacks_
      ∧ (DatastoreRequest.delete ctx dks dcb doracle).dispatched = [])
    ∧ (ctx.id = none →
      (DatastoreRequest.save ctx inp cb soracle).dispatched =
          [("commit", { mutation := (buildMutationGo 0 inp.toList).mutation })]
      ∧ (DatastoreRequest.save ctx inp cb soracle).ctx = ctx
      ∧ (DatastoreRequest.delete ctx dks dcb doracle).dispatched =
          [("commit", { mutation := { upsert := [], insert_auto_id := [],
                                      delete := dks.toList.map keyToKeyProto } })]
      ∧ (DatastoreRequest.delete ctx dks dcb doracle).ctx = ctx) := by
  constructor
  · intro hid
    have hs : ctx.id.isSome = true := by simp [hid]
    simp [DatastoreRequest.save, DatastoreRequest.delete, hs]
  · intro hid
    have hs : ctx.id.isSome = false := by simp [hid]
    rcases soracle with _ | ⟨e, r⟩ <;> rcases doracle with _ | a <;>
      simp [DatastoreRequest.save, DatastoreRequest.delete, hs]

/-- Witness for C5 at concrete inputs: a transaction-bound context buffers a
one-entity save and a one-key delete; the same context without the identifier
dispatches both commits immediately. -/
theorem mutation_transaction_buffering_witness :
    ((DatastoreRequest.save { id := some "t", requests_ := [], requestCallbacks_ := [] }
        (.many []) none none).ctx.requests_ =
        [] ++ [{ mutation := (buildMutationGo 0 (OneOrMany.many ([] : List EntityDescriptor)).toList).mutation }]
      ∧ (DatastoreRequest.save { id := some "t", requests_ := [], requestCallbacks_ := [] }
          (.many []) none none).ctx.requestCallbacks_ = [] ++ [.saveOnCommit]
      ∧ (DatastoreRequest.save { id := some "t", requests_ := [], requestCallbacks_ := [] }
          (.many []) none none).dispatched = []
      ∧ (DatastoreRequest.save { id := some "t", requests_ := [], requestCallbacks_ := [] }
          (.many []) none none).invoked = none
      ∧ (DatastoreRequest.delete { id := some "t", requests_ := [], requestCallbacks_ := [] }
          (.many []) none none).ctx.requests_ =
          [] ++ [{ mutation := { upsert := [], insert_auto_id := [],
                                 delete := (OneOrMany.many ([] : List Key)).toList.map keyToKeyProto } }]
      ∧ (DatastoreRequest.delete { id := some "t", requests_ := [], requestCallbacks_ := [] }
          (.many []) none none).ctx.requestCallbacks_ = []
      ∧ (DatastoreRequest.delete { id := some "t", requests_ := [], requestCallbacks_ := [] }
          (.many []) none none).dispatched = []) :=
  (mutation_transaction_buffering { id := some "t", requests_ := [], requestCallbacks_ := [] }
    "t" (.many []) (.many []) none none none none).1 rfl

/-- Wire encoding of a descriptor leaves its key untouched (only array-shaped
data records are normalized in place). -/
theorem encodeDescriptor_key (e : EntityDescriptor) : (encodeDescriptor e).2.key = e.key := by
  cases h : e.data <;> simp [encodeDescriptor, h]

/-- The classification reduce returns the caller's descriptor array with each
descriptor as `encodeDescriptor` leaves it. -/
theorem buildMutationGo_entities (i : Nat) (es : List EntityDescriptor) :
    (buildMutationGo i es).entities = es.map fun e => (encodeDescriptor e).2 := by
  induction es generalizing i with
  | nil => rfl
  | cons e es ih =>
    by_cases hc : isKeyComplete e.key <;> simp [buildMutationGo, hc, ih]

/-- Keys are untouched position by position across the classification
reduce. -/
theorem buildMutationGo_key_getD (es : List EntityDescriptor) :
    ∀ (j : Nat) (d : EntityDescriptor),
      (((buildMutationGo 0 es).entities).getD j d).key = (es.getD j d).key := by
  rw [buildMutationGo_entities]
  induction es with
  | nil => intro j d; rfl
  | cons e es ih =>
    intro j d
    cases j with
    | zero => simpa using encodeDescriptor_key e
    | succ j => simpa using ih j d

/-- C6: a `save` whose commit completion reports an error or delivers no
response payload surfaces that error (or the void success when there is
nothing to reconcile) to the caller and mutates no caller-supplied key
object. -/
theorem save_commit_error_no_mutation (ctx : ReqCtx) (inp : OneOrMany EntityDescriptor)
    (cb : Option Callback) (err : Option Err) (resp : Option CommitResp)
    (hid : ctx.id = none) (hfail : err.isSome = true ∨ resp = none) :
    (DatastoreRequest.save ctx inp cb (some (err, resp))).invoked = some err
    ∧ ∀ (j : Nat) (d : EntityDescriptor),
        ((DatastoreRequest.save ctx inp cb (some (err, resp))).entities.getD j d).key
          = (inp.toList.getD j d).key := by
  have hs : ctx.id.isSome = false := by simp [hid]
  have hentities :
      (DatastoreRequest.save ctx inp cb (some (err, resp))).entities
        = (buildMutationGo 0 inp.toList).entities := by
    rcases resp with _ | r
    · simp [DatastoreRequest.save, hs, onCommit]
    · rcases hfail with he | hr
      · simp [DatastoreRequest.save, hs, onCommit, he]
      · exact absurd hr (by simp)
  refine ⟨?_, ?_⟩
  · rcases resp with _ | r
    · simp [DatastoreRequest.save, hs, onCommit]
    · rcases hfail with he | hr
      · simp [DatastoreRequest.save, hs, onCommit, he]
      · exact absurd hr (by simp)
  · intro j d
    rw [hentities, buildMutationGo_key_getD]

/-- Witness for C6 at a concrete input: a commit completion reporting an error
surfaces it and leaves the incomplete key untouched. -/
theorem save_commit_error_no_mutation_witness :
    (DatastoreRequest.save { id := none, requests_ := [], requestCallbacks_ := [] }
        (.one { key := { ns := none, path := [⟨"C", none⟩] }, data := .bag "hq" })
        (some (.user 0)) (some (some "boom", none))).invoked = some (some "boom")
    ∧ ∀ (j : Nat) (d : EntityDescriptor),
        ((DatastoreRequest.save { id := none, requests_ := [], requestCallbacks_ := [] }
          (.one { key := { ns := none, path := [⟨"C", none⟩] }, data := .bag "hq" })
          (some (.user 0)) (some (some "boom", none))).entities.getD j d).key
          = ((OneOrMany.one { key := { ns := none, path := [⟨"C", none⟩] }, data := SaveData.bag "hq" }).toList.getD j d).key :=
  save_commit_error_no_mutation { id := none, requests_ := [], requestCallbacks_ := [] }
    (.one { key := { ns := none, path := [⟨"C", none⟩] }, data := .bag "hq" })
    (some (.user 0)) (some "boom") none rfl (Or.inl rfl)

/-! ### Classification of the save batches against the spec's description -/

/-- Spec side (§4.3): the `upsert` batch holds the wire entities of the
complete-key descriptors, in input order. -/
def specUpsertBatch (es : List EntityDescriptor) : List EntityProto :=
  (es.filter fun e => isKeyComplete e.key).map fun e => (encodeDescriptor e).1

/-- Spec side (§4.3): the `insert_auto_id` batch holds the wire entities of the
incomplete-key descriptors, in input order. -/
def specInsertBatch (es : List EntityDescriptor) : List EntityProto :=
  (es.filter fun e => !isKeyComplete e.key).map fun e => (encodeDescriptor e).1

/-- Spec side (§4.3): the recorded input positions of the incomplete-key
descriptors, in input order, when the first descriptor sits at position `i`. -/
def specInsertPositionsFrom (i : Nat) (es : List EntityDescriptor) : List Nat :=
  ((List.enumFrom i es).filter fun p => !isKeyComplete p.2.key).map fun p => p.1

/-- Spec side (§4.3): the recorded input positions over the whole input
array. -/
def specInsertPositions (es : List EntityDescriptor) : List Nat :=
  specInsertPositionsFrom 0 es

/-- The classification reduce realizes the spec's batch description: complete
keys to `upsert`, incomplete keys to `insert_auto_id` with their input
positions recorded in order, nothing deleted, and the descriptor array
rewritten by the wire encoding. -/
theorem buildMutationGo_spec (i : Nat) (es : List EntityDescriptor) :
    buildMutationGo i es =
      { mutation := { upsert := specUpsertBatch es, insert_auto_id := specInsertBatch es,
                      delete := [] },
        insertIndexes := specInsertPositionsFrom i es,
        entities := es.map fun e => (encodeDescriptor e).2 } := by
  induction es generalizing i with
  | nil => rfl
  | cons e es ih =>
    by_cases hc : isKeyComplete e.key <;>
      simp [buildMutationGo, hc, ih, specUpsertBatch, specInsertBatch,
        specInsertPositionsFrom, List.enumFrom_cons, List.filter_cons]

/-- Every recorded position is at least the starting index and within the
input array. -/
theorem specInsertPositionsFrom_bounds (es : List EntityDescriptor) :
    ∀ (i : Nat), ∀ p ∈ specInsertPositionsFrom i es, i ≤ p ∧ p < i + es.length := by
  induction es with
  | nil => intro i p hp; simp [specInsertPositionsFrom] at hp
  | cons e es ih =>
    intro i p hp
    simp only [specInsertPositionsFrom, List.enumFrom_cons, List.filter_cons] at hp
    by_cases hc : isKeyComplete e.key
    · rw [if_neg (by simp [hc])] at hp
      have h := ih (i + 1) p hp
      refine ⟨by omega, ?_⟩
      simp only [List.length_cons]
      omega
    · rw [if_pos (by simp [hc])] at hp
      simp only [List.map_cons, List.mem_cons] at hp
      rcases hp with h | h
      · subst h
        refine ⟨le_refl p, by simp⟩
      · have h2 := ih (i + 1) p h
        refine ⟨by omega, ?_⟩
        simp only [List.length_cons]
        omega

/-- The recorded positions are strictly increasing. -/
theorem specInsertPositionsFrom_pairwise (es : List EntityDescriptor) :
    ∀ (i : Nat), (specInsertPositionsFrom i es).Pairwise (· < ·) := by
  induction es with
  | nil => intro i; simp [specInsertPositionsFrom]
  | cons e es ih =>
    intro i
    simp only [specInsertPositionsFrom, List.enumFrom_cons, List.filter_cons]
    by_cases hc : isKeyComplete e.key
    · rw [if_neg (by simp [hc])]
      exact ih (i + 1)
    · rw [if_pos (by simp [hc])]
      simp only [List.map_cons, List.pairwise_cons]
      refine ⟨fun p hp => ?_, ih (i + 1)⟩
      have h := (specInsertPositionsFrom_bounds es (i + 1) p hp).1
      omega

/-- The recorded positions carry no duplicates. -/
theorem specInsertPositions_nodup (es : List EntityDescriptor) :
    (specInsertPositions es).Nodup :=
  (specInsertPositionsFrom_pairwise es 0).imp Nat.ne_of_lt

/-- Every recorded position indexes into the input array. -/
theorem specInsertPositions_lt (es : List EntityDescriptor) :
    ∀ p ∈ specInsertPositions es, p < es.length := by
  intro p hp
  simpa using (specInsertPositionsFrom_bounds es 0 p hp).2

/-! ### Reconciliation of generated keys -/

/-- The in-place path update preserves the array's length. -/
theorem updateKeyPath_length (es : List EntityDescriptor) (j : Nat) (p : List PathElem) :
    (updateKeyPath es j p).length = es.length := by
  induction es generalizing j with
  | nil => rfl
  | cons e es ih => cases j <;> simp [updateKeyPath, ih]

/-- The in-place path update leaves every other position untouched. -/
theorem updateKeyPath_getD_ne (es : List EntityDescriptor) (j q : Nat) (p : List PathElem)
    (d : EntityDescriptor) (hne : j ≠ q) :
    (updateKeyPath es j p).getD q d = es.getD q d := by
  induction es generalizing j q with
  | nil => cases j <;> rfl
  | cons e es ih =>
    cases j with
    | zero =>
      cases q with
      | zero => exact absurd rfl hne
      | succ q => simp [updateKeyPath]
    | succ j =>
      cases q with
      | zero => simp [updateKeyPath]
      | succ q => simpa [updateKeyPath] using ih j q (fun h => hne (by omega))

/-- The in-place path update rewrites exactly the key path at its position. -/
theorem updateKeyPath_getD_self (es : List EntityDescriptor) (j : Nat) (p : List PathElem)
    (d : EntityDescriptor) (hj : j < es.length) :
    (updateKeyPath es j p).getD j d =
      { es.getD j d with key := { (es.getD j d).key with path := p } } := by
  induction es generalizing j with
  | nil => simp at hj
  | cons e es ih =>
    cases j with
    | zero => simp [updateKeyPath]
    | succ j => simpa [updateKeyPath] using ih j (by simpa using hj)

/-- The in-place path update changes no descriptor's data and no key
namespace, at any position. -/
theorem updateKeyPath_getD_frame (es : List EntityDescriptor) (j q : Nat) (p : List PathElem)
    (d : EntityDescriptor) :
    ((updateKeyPath es j p).getD q d).data = (es.getD q d).data
    ∧ ((updateKeyPath es j p).getD q d).key.ns = (es.getD q d).key.ns := by
  induction es generalizing j q with
  | nil => cases j <;> exact ⟨rfl, rfl⟩
  | cons e es ih =>
    cases j with
    | zero => cases q <;> simp [updateKeyPath]
    | succ j =>
      cases q with
      | zero => simp [updateKeyPath]
      | succ q => simpa [updateKeyPath] using ih j q

/-- Reconciliation leaves positions outside the recorded list untouched. -/
theorem applyAutoKeys_getD_notMem (es : List EntityDescriptor) (js : List Nat)
    (ks : List KeyProto) (q : Nat) (d : EntityDescriptor) (hq : q ∉ js) :
    (applyAutoKeys es js ks).getD q d = es.getD q d := by
  induction ks generalizing es js with
  | nil => cases js <;> rfl
  | cons k ks ih =>
    cases js with
    | nil => rfl
    | cons j js =>
      have hj : j ≠ q := fun h => hq (h ▸ List.mem_cons_self j js)
      have hq' : q ∉ js := fun h => hq (List.mem_cons_of_mem j h)
      rw [applyAutoKeys, ih _ _ hq', updateKeyPath_getD_ne es j q _ d hj]

/-- Reconciliation preserves length. -/
theorem applyAutoKeys_length (es : List EntityDescriptor) (js : List Nat)
    (ks : List KeyProto) :
    (applyAutoKeys es js ks).length = es.length := by
  induction ks generalizing es js with
  | nil => cases js <;> rfl
  | cons k ks ih =>
    cases js with
    | nil => rfl
    | cons j js => rw [applyAutoKeys, ih, updateKeyPath_length]

/-- Reconciliation changes no descriptor's data and no key namespace. -/
theorem applyAutoKeys_getD_frame (es : List EntityDescriptor) (js : List Nat)
    (ks : List KeyProto) (q : Nat) (d : EntityDescriptor) :
    ((applyAutoKeys es js ks).getD q d).data = (es.getD q d).data
    ∧ ((applyAutoKeys es js ks).getD q d).key.ns = (es.getD q d).key.ns := by
  induction ks generalizing es js with
  | nil => cases js <;> exact ⟨rfl, rfl⟩
  | cons k ks ih =>
    cases js with
    | nil => exact ⟨rfl, rfl⟩
    | cons j js =>
      rw [applyAutoKeys]
      refine ⟨?_, ?_⟩
      · rw [(ih _ _).1, (updateKeyPath_getD_frame es j q _ d).1]
      · rw [(ih _ _).2, (updateKeyPath_getD_frame es j q _ d).2]

/-- Reconciliation copies the `i`-th generated key's path onto the descriptor
at the `i`-th recorded position, leaving its other fields as they were, as
long as positions are distinct and in range. -/
theorem applyAutoKeys_getD_mem (ks : List KeyProto) (js : List Nat)
    (es : List EntityDescriptor) (i : Nat) (d : EntityDescriptor) (dk : KeyProto)
    (hnd : js.Nodup) (hik : i < ks.length) (hij : i < js.length)
    (hlt : js.getD i 0 < es.length) :
    (applyAutoKeys es js ks).getD (js.getD i 0) d =
      { es.getD (js.getD i 0) d with
        key := { (es.getD (js.getD i 0) d).key with
                 path := (keyFromKeyProto (ks.getD i dk)).path } } := by
  induction ks generalizing es js i with
  | nil => simp at hik
  | cons k ks ih =>
    cases js with
    | nil => simp at hij
    | cons j js =>
      have hjs : j ∉ js := (List.nodup_cons.mp hnd).1
      have hnd' : js.Nodup := (List.nodup_cons.mp hnd).2
      cases i with
      | zero =>
        simp only [List.getD_cons_zero] at hlt ⊢
        rw [applyAutoKeys, applyAutoKeys_getD_notMem _ _ _ _ _ hjs,
          updateKeyPath_getD_self es j _ d hlt]
      | succ i =>
        simp only [List.getD_cons_succ] at hlt ⊢
        have hmem : js.getD i 0 ∈ js := by
          have hi : i < js.length := by simpa using hij
          have : js.getD i 0 = js.get ⟨i, hi⟩ := by
            simp [List.getD_eq_getElem?_getD, List.getElem?_eq_getElem hi]
          rw [this]
          exact List.get_mem js i hi
        have hne : j ≠ js.getD i 0 := fun h => hjs (h ▸ hmem)
        rw [applyAutoKeys,
          ih js (updateKeyPath es j (keyFromKeyProto k).path) i hnd'
            (by simpa using hik) (by simpa using hij)
            (by rw [updateKeyPath_length]; exact hlt),
          updateKeyPath_getD_ne es j _ _ d hne]

/-! ### Concrete fixtures used by witnesses -/

/-- Fixture: a context with no bound transaction and empty queues. -/
def ctxPlain : ReqCtx := { id := none, requests_ := [], requestCallbacks_ := [] }

/-- Fixture: incomplete-key descriptor A. -/
def eIncA : EntityDescriptor := { key := { ns := none, path := [⟨"A", none⟩] }, data := .bag "a" }

/-- Fixture: complete-key descriptor B. -/
def eComplB : EntityDescriptor :=
  { key := { ns := none, path := [⟨"B", some "1"⟩] }, data := .bag "b" }

/-- Fixture: incomplete-key descriptor C. -/
def eIncC : EntityDescriptor := { key := { ns := none, path := [⟨"C", none⟩] }, data := .bag "c" }

/-- Fixture: the server-generated key for A. -/
def genA : KeyProto := keyToKeyProto { ns := none, path := [⟨"A", some "7"⟩] }

/-- Fixture: the server-generated key for C. -/
def genC : KeyProto := keyToKeyProto { ns := none, path := [⟨"C", some "8"⟩] }

/-- Fixture: a commit response generating keys for A and C, in that order. -/
def respGenAC : CommitResp := { mutation_result := { insert_auto_id_key := some [genA, genC] } }

/-- An in-range `getD` is a member. -/
theorem getD_mem_of_lt (js : List Nat) (i : Nat) (hi : i < js.length) : js.getD i 0 ∈ js := by
  have h : js.getD i 0 = js.get ⟨i, hi⟩ := by
    simp [List.getD_eq_getElem?_getD, List.getElem?_eq_getElem hi]
  rw [h]
  exact List.get_mem js i hi

/-- C1: on a mixed batch save, complete-key descriptors go to the `upsert`
batch and incomplete-key ones to the `insert_auto_id` batch with their input
positions recorded in order; after a successful commit the `i`-th generated
key's path is copied onto the caller's key object at the `i`-th recorded
position, and the key objects of complete-key descriptors are left
untouched. -/
theorem save_mixed_batch_reconciliation (es : List EntityDescriptor) (gk : List KeyProto)
    (cb : Option Callback) (ctx : ReqCtx)
    (hid : ctx.id = none)
    (hlen : gk.length = (specInsertPositions es).length) :
    (buildMutationGo 0 es).mutation.upsert = specUpsertBatch es
    ∧ (buildMutationGo 0 es).mutation.insert_auto_id = specInsertBatch es
    ∧ (buildMutationGo 0 es).insertIndexes = specInsertPositions es
    ∧ (DatastoreRequest.save ctx (.many es) cb
        (some (none, some { mutation_result := { insert_auto_id_key := some gk } }))).invoked
        = some none
    ∧ (∀ (i : Nat) (d : EntityDescriptor) (dk : KeyProto), i < gk.length →
        ((DatastoreRequest.save ctx (.many es) cb
            (some (none, some { mutation_result := { insert_auto_id_key := some gk } }))).entities.getD
              ((specInsertPositions es).getD i 0) d).key.path
          = (keyFromKeyProto (gk.getD i dk)).path)
    ∧ (∀ (j : Nat) (d : EntityDescriptor), j ∉ specInsertPositions es →
        ((DatastoreRequest.save ctx (.many es) cb
            (some (none, some { mutation_result := { insert_auto_id_key := some gk } }))).entities.getD
              j d).key
          = (es.getD j d).key) := by
  have hs : ctx.id.isSome = false := by simp [hid]
  have hb := buildMutationGo_spec 0 es
  have hidx : (buildMutationGo 0 es).insertIndexes = specInsertPositions es := by
    rw [hb]; rfl
  have hinv : (DatastoreRequest.save ctx (.many es) cb
      (some (none, some { mutation_result := { insert_auto_id_key := some gk } }))).invoked
      = some none := by
    simp [DatastoreRequest.save, hs, onCommit, OneOrMany.toList]
  have hents : (DatastoreRequest.save ctx (.many es) cb
      (some (none, some { mutation_result := { insert_auto_id_key := some gk } }))).entities
      = applyAutoKeys (buildMutationGo 0 es).entities
          (buildMutationGo 0 es).insertIndexes gk := by
    simp [DatastoreRequest.save, hs, onCommit, OneOrMany.toList]
  have hlength : (buildMutationGo 0 es).entities.length = es.length := by
    rw [buildMutationGo_entities, List.length_map]
  refine ⟨by rw [hb], by rw [hb], hidx, hinv, ?_, ?_⟩
  · intro i d dk hi
    have hij : i < (specInsertPositions es).length := hlen ▸ hi
    have hlt : (specInsertPositions es).getD i 0 < (buildMutationGo 0 es).entities.length := by
      rw [hlength]
      exact specInsertPositions_lt es _ (getD_mem_of_lt _ i hij)
    rw [hents, hidx,
      applyAutoKeys_getD_mem gk (specInsertPositions es) _ i d dk
        (specInsertPositions_nodup es) hi hij hlt]
  · intro j d hj
    rw [hents, hidx, applyAutoKeys_getD_notMem _ _ _ _ _ hj, buildMutationGo_key_getD]

/-- Witness for C1 at the spec's own example: `[incomplete A, complete B,
incomplete C]` with a response generating keys for A and C in that order
updates A's and C's paths at positions 0 and 2 and leaves B's key untouched. -/
theorem save_mixed_batch_reconciliation_witness :
    ((buildMutationGo 0 [eIncA, eComplB, eIncC]).insertIndexes
      = specInsertPositions [eIncA, eComplB, eIncC])
    ∧ (∀ (i : Nat) (d : EntityDescriptor) (dk : KeyProto), i < ([genA, genC] : List KeyProto).length →
        ((DatastoreRequest.save ctxPlain (.many [eIncA, eComplB, eIncC]) none
            (some (none, some respGenAC))).entities.getD
              ((specInsertPositions [eIncA, eComplB, eIncC]).getD i 0) d).key.path
          = (keyFromKeyProto (([genA, genC] : List KeyProto).getD i dk)).path)
    ∧ (∀ (j : Nat) (d : EntityDescriptor), j ∉ specInsertPositions [eIncA, eComplB, eIncC] →
        ((DatastoreRequest.save ctxPlain (.many [eIncA, eComplB, eIncC]) none
            (some (none, some respGenAC))).entities.getD j d).key
          = (([eIncA, eComplB, eIncC] : List EntityDescriptor).getD j d).key) := by
  have h := save_mixed_batch_reconciliation [eIncA, eComplB, eIncC] [genA, genC]
    none ctxPlain rfl (by decide)
  exact ⟨h.2.2.1, h.2.2.2.2.1, h.2.2.2.2.2⟩

/-! ### Frame effects of save (C8) -/

/-- Fixture: a default descriptor for out-of-range `getD`. -/
def dEnt : EntityDescriptor := { key := { ns := none, path := [] }, data := .bag "" }

/-- Fixture: an explicit property record with an index-control flag. -/
def recRating : DataRecord := { name := "rating", value := .raw "10", excludeFromIndexes := some true }

/-- Fixture: a complete-key descriptor whose data is an explicit record
list. -/
def eRec : EntityDescriptor :=
  { key := { ns := none, path := [⟨"R", some "1"⟩] }, data := .records [recRating] }

/-- Fixture: a commit response generating no keys. -/
def respNoGen : CommitResp := { mutation_result := { insert_auto_id_key := some [] } }

/-- The commit response carrying the given generated keys. -/
def commitRespOf (gk : List KeyProto) : CommitResp :=
  { mutation_result := { insert_auto_id_key := some gk } }

/-- Counterexample to C8 as stated: a successful save of a complete-key
descriptor whose data is an explicit record list leaves the caller's data
record changed — its `value` slot now holds the wire property and its
`excludeFromIndexes` flag is gone — even though no key was to be
reconciled. -/
theorem save_mutates_data_records :
    ((DatastoreRequest.save ctxPlain (.one eRec) (some (.user 0))
        (some (none, some respNoGen))).entities.getD 0 dEnt).data ≠ eRec.data := by
  decide

/-- In-range `getD` through the descriptor-encoding map. -/
theorem map_enc_getD_lt (es : List EntityDescriptor) (j : Nat) (d : EntityDescriptor)
    (hj : j < es.length) :
    (es.map fun e => (encodeDescriptor e).2).getD j d = (encodeDescriptor (es.getD j d)).2 := by
  induction es generalizing j with
  | nil => simp at hj
  | cons e es ih =>
    cases j with
    | zero => rfl
    | succ j => simpa using ih j (by simpa using hj)

/-- Bag-shaped data passes through the wire encoding untouched. -/
theorem encodeDescriptor_bag (e : EntityDescriptor) (b : String) (hb : e.data = .bag b) :
    (encodeDescriptor e).2 = e := by
  simp [encodeDescriptor, hb]

set_option linter.unusedVariables false in
/-- C8 (amended): the caller-owned state a successful mixed-batch save mutates
is exactly (a) the data records of explicit-list descriptors, which are
normalized in place by the wire encoding, and (b) the key paths at the
recorded insert positions; bag-shaped data, key namespaces, and the keys of
complete-key descriptors are left unchanged.  The length hypothesis keeps the
statement on well-formed responses (one generated key per recorded position),
the only ones the reconciliation loop is defined for. -/
theorem save_frame_effects (es : List EntityDescriptor) (gk : List KeyProto)
    (cb : Option Callback) (ctx : ReqCtx) (hid : ctx.id = none)
    (hlen : gk.length = (specInsertPositions es).length) :
    (∀ (j : Nat) (d : EntityDescriptor), j < es.length →
        ((DatastoreRequest.save ctx (.many es) cb
            (some (none, some (commitRespOf gk)))).entities.getD j d).data
          = (encodeDescriptor (es.getD j d)).2.data)
    ∧ (∀ (j : Nat) (d : EntityDescriptor) (b : String), (es.getD j d).data = .bag b →
        ((DatastoreRequest.save ctx (.many es) cb
            (some (none, some (commitRespOf gk)))).entities.getD j d).data
          = (es.getD j d).data)
    ∧ (∀ (j : Nat) (d : EntityDescriptor),
        ((DatastoreRequest.save ctx (.many es) cb
            (some (none, some (commitRespOf gk)))).entities.getD j d).key.ns
          = (es.getD j d).key.ns)
    ∧ (∀ (j : Nat) (d : EntityDescriptor), j ∉ specInsertPositions es →
        ((DatastoreRequest.save ctx (.many es) cb
            (some (none, some (commitRespOf gk)))).entities.getD j d).key
          = (es.getD j d).key) := by
  have hs : ctx.id.isSome = false := by simp [hid]
  have hidx : (buildMutationGo 0 es).insertIndexes = specInsertPositions es := by
    rw [buildMutationGo_spec]; rfl
  have hents : (DatastoreRequest.save ctx (.many es) cb
      (some (none, some (commitRespOf gk)))).entities
      = applyAutoKeys (buildMutationGo 0 es).entities
          (buildMutationGo 0 es).insertIndexes gk := by
    simp [DatastoreRequest.save, hs, onCommit, OneOrMany.toList, commitRespOf]
  have hdata : ∀ (j : Nat) (d : EntityDescriptor), j < es.length →
      (((buildMutationGo 0 es).entities).getD j d).data
        = (encodeDescriptor (es.getD j d)).2.data := by
    intro j d hj
    rw [buildMutationGo_entities, map_enc_getD_lt es j d hj]
  refine ⟨?_, ?_, ?_, ?_⟩
  · intro j d hj
    rw [hents, (applyAutoKeys_getD_frame _ _ _ _ _).1, hdata j d hj]
  · intro j d b hb
    by_cases hj : j < es.length
    · rw [hents, (applyAutoKeys_getD_frame _ _ _ _ _).1, hdata j d hj,
        encodeDescriptor_bag _ b hb]
    · have hlen2 : (buildMutationGo 0 es).entities.length ≤ j := by
        rw [buildMutationGo_entities, List.length_map]; omega
      rw [hents, (applyAutoKeys_getD_frame _ _ _ _ _).1,
        List.getD_eq_default _ _ hlen2, List.getD_eq_default _ _ (by omega)]
  · intro j d
    rw [hents, (applyAutoKeys_getD_frame _ _ _ _ _).2, buildMutationGo_key_getD]
  · intro j d hj
    rw [hents, hidx, applyAutoKeys_getD_notMem _ _ _ _ _ hj, buildMutationGo_key_getD]

/-- Witness for C8's amended statement at a concrete input: a mixed batch with
a bag-data incomplete key and a record-data complete key. -/
theorem save_frame_effects_witness :
    (∀ (j : Nat) (d : EntityDescriptor), j < ([eIncA, eRec] : List EntityDescriptor).length →
        ((DatastoreRequest.save ctxPlain (.many [eIncA, eRec]) none
            (some (none, some (commitRespOf [genA])))).entities.getD j d).data
          = (encodeDescriptor (([eIncA, eRec] : List EntityDescriptor).getD j d)).2.data)
    ∧ (∀ (j : Nat) (d : EntityDescriptor),
        ((DatastoreRequest.save ctxPlain (.many [eIncA, eRec]) none
            (some (none, some (commitRespOf [genA])))).entities.getD j d).key.ns
          = (([eIncA, eRec] : List EntityDescriptor).getD j d).key.ns) := by
  have h := save_frame_effects [eIncA, eRec] [genA] none ctxPlain rfl (by decide)
  exact ⟨h.1, h.2.2.1⟩

/-! ### Streaming query with a client-side limit (C3) -/

/-- The entities a page delivers. -/
def pageEnts (p : QueryPage) : List Entity := formatArray p.entity_result

/-- A page that keeps the stream alive: it carries a cursor and a nonempty
entity batch (line 416 ends the stream on anything else). -/
def productive (p : QueryPage) : Bool :=
  (p.end_cursor.getD "" != "") && !(pageEnts p).isEmpty

/-- Spec side (§4.5): the number of page requests a limited stream issues —
it stops at the first page whose batch covers the remaining budget, and
fetches one final page when the budget outlives the data. -/
def streamPagesNeeded : Nat → List QueryPage → Nat
  | _, [] => 1
  | L, p :: ps =>
    if L ≤ (pageEnts p).length then 1 else 1 + streamPagesNeeded (L - (pageEnts p).length) ps

/-- C3: a streaming `runQuery` with client-side limit `L` over productive
pages followed by a terminal page emits exactly the first
`min (L, total available)` entities, in page order, and issues exactly
`streamPagesNeeded L ps` page requests — it stops requesting pages once the
budget is covered, even if the last-fetched page held more entities, and
never touches the oracle beyond the terminal page. -/
theorem runQuery_stream_limit (ps : List QueryPage) (t : QueryPage)
    (junk : List (Except Err QueryPage)) (L : Nat)
    (hps : ∀ p ∈ ps, productive p = true)
    (ht : productive t = false) :
    DatastoreRequest.runQueryStream { limitVal := some L }
        (ps.map Except.ok ++ Except.ok t :: junk)
      = .ended ((ps.map pageEnts).flatten.take L) (streamPagesNeeded L ps)
    ∧ ((ps.map pageEnts).flatten.take L).length
      = min L (ps.map pageEnts).flatten.length := by
  refine ⟨?_, by simp [List.length_take]⟩
  show runQueryStreamGo (ps.map Except.ok ++ Except.ok t :: junk) (some L)
    = .ended ((ps.map pageEnts).flatten.take L) (streamPagesNeeded L ps)
  induction ps generalizing L with
  | nil =>
    have h : t.end_cursor.getD "" = "" ∨ formatArray t.entity_result = [] := by
      rcases Bool.and_eq_false_iff.mp ht with h | h
      · exact Or.inl (by simpa using h)
      · exact Or.inr (by simpa [pageEnts] using h)
    simp only [List.map_nil, List.nil_append, runQueryStreamGo]
    rw [if_pos h]
    simp [streamPagesNeeded]
  | cons p ps ih =>
    have hp := hps p (List.mem_cons_self p ps)
    have hps' : ∀ x ∈ ps, productive x = true := fun x hx => hps x (List.mem_cons_of_mem p hx)
    have hc : ¬ p.end_cursor.getD "" = "" := by
      have h := hp
      simp [productive] at h
      exact h.1
    have he : ¬ formatArray p.entity_result = [] := by
      have h := hp
      simp [productive, pageEnts] at h
      exact h.2
    simp only [List.map_cons, List.cons_append, runQueryStreamGo]
    rw [if_neg (not_or.mpr ⟨hc, he⟩)]
    by_cases hL : L ≤ (formatArray p.entity_result).length
    · have hlen : (List.take L (formatArray p.entity_result)).length = L := by
        simp [List.length_take]
        omega
      rw [if_pos (by rw [hlen]; omega)]
      have hpages : streamPagesNeeded L (p :: ps) = 1 := by
        rw [streamPagesNeeded, if_pos (by simpa [pageEnts] using hL)]
      rw [hpages]
      simp [List.take_append_eq_append_take, pageEnts, Nat.sub_eq_zero_of_le hL]
    · have hlt : (formatArray p.entity_result).length < L := by omega
      have htk : List.take L (formatArray p.entity_result) = formatArray p.entity_result :=
        List.take_of_length_le (le_of_lt hlt)
      rw [if_neg (by rw [htk]; omega)]
      rw [htk]
      simp only [List.append_eq]
      rw [ih (L - (formatArray p.entity_result).length) hps']
      have hpages : streamPagesNeeded L (p :: ps) =
          1 + streamPagesNeeded (L - (pageEnts p).length) ps := by
        rw [streamPagesNeeded, if_neg (by simpa [pageEnts] using hL)]
      rw [hpages]
      simp only [StreamOutcome.after, List.map_cons, List.flatten_cons,
        List.take_append_eq_append_take, pageEnts]
      rw [List.take_of_length_le (le_of_lt hlt)]
      exact congrArg₂ _ rfl (by omega)

/-- Witness for C3 at a concrete input: two productive pages of two entities
each and a limit of 3 emit exactly the first three entities over two page
requests, leaving the second page's last entity and the terminal page's data
unconsumed. -/
theorem runQuery_stream_limit_witness :
    DatastoreRequest.runQueryStream { limitVal := some 3 }
        ([{ entity_result := [⟨⟨"a"⟩⟩, ⟨⟨"b"⟩⟩], end_cursor := some "c1" },
          { entity_result := [⟨⟨"c"⟩⟩, ⟨⟨"d"⟩⟩], end_cursor := some "c2" }].map Except.ok
          ++ Except.ok { entity_result := [], end_cursor := none } :: [])
      = .ended [⟨"a"⟩, ⟨"b"⟩, ⟨"c"⟩] 2 := by
  have h := (runQuery_stream_limit
    [{ entity_result := [⟨⟨"a"⟩⟩, ⟨⟨"b"⟩⟩], end_cursor := some "c1" },
     { entity_result := [⟨⟨"c"⟩⟩, ⟨⟨"d"⟩⟩], end_cursor := some "c2" }]
    { entity_result := [], end_cursor := none } [] 3
    (by decide) (by decide)).1
  simpa [pageEnts, formatArray, streamPagesNeeded] using h

end DatastoreMgr
